import Mathlib

/-!
Verification of the HTTP JSON client helper in `src/frontend/js/api.js`.

The source is a single function:

  const API_BASE = '/api';
  export async function api(path, method = "GET", body = null) {
    const res = await fetch(API_BASE + path, {
      method,
      credentials: "include",
      headers: { "Content-Type": "application/json" },
      body: body ? JSON.stringify(body) : null,
    });
    if (!res.ok) {
      let msg = "Request failed (" + res.status + ")";
      try { const j = await res.json(); if (j?.message) msg = j.message; } catch {}
      throw new Error(msg);
    }
    return res.json();
  }

We embed it shallowly: JSON values are an inductive type (numbers are
modelled as integers), the outbound fetch request is a record of the
options object the source builds, and the response handling is a pure
function from the server's response to an outcome.  The response body is
abstracted by the result of parsing it as JSON (`some v` when `res.json()`
succeeds with value `v`, `none` when it rejects), which is the only way the
source inspects it.  The platform's `JSON.stringify` / `JSON.parse` pair is
modelled executably below, so that the serialization round-trip can be
proved rather than assumed.
-/

/-- JSON values.  Numbers are modelled as integers; object fields keep the
order in which they appear (JS objects preserve insertion order). -/
inductive Json where
  | null : Json
  | bool : Bool → Json
  | num : Int → Json
  | str : String → Json
  | arr : List Json → Json
  | obj : List (String × Json) → Json
deriving Repr

/-- JavaScript truthiness of a JSON value, as tested by the source in
`body ? ... : null` and `if (j?.message)`: null, false, 0 and the empty
string are falsy; every array and object is truthy. -/
def Json.truthy : Json → Bool
  | .null => false
  | .bool b => b
  | .num n => n != 0
  | .str s => !s.isEmpty
  | .arr _ => true
  | .obj _ => true

/-- The JS string coercion String(v) applied by `new Error(msg)` when the
extracted message is not already a string: arrays join their coerced
elements with commas (null elements coerce to the empty string inside an
array), plain objects coerce to "[object Object]". -/
def Json.jsToString : Json → String
  | .null => "null"
  | .bool true => "true"
  | .bool false => "false"
  | .num n => toString n
  | .str s => s
  | .arr xs => String.intercalate "," (xs.attach.map fun x =>
      match x with
      | ⟨.null, _⟩ => ""
      | ⟨j, _⟩ => Json.jsToString j)
  | .obj _ => "[object Object]"

/-- The source's `j?.message`: only a (non-null) object exposes a
`message` property; on anything else the optional chaining yields
undefined.  Returns the field's value when present. -/
def Json.getMessage : Json → Option Json
  | .obj kvs => kvs.lookup "message"
  | _ => none

/-- The `ok` getter of a fetch `Response`: true exactly for status codes
in the range 200..299. -/
def responseOk (status : Nat) : Bool :=
  200 ≤ status && status < 300

/-! ### Model of the platform's JSON serialization

`JSON.stringify` is modelled character-list first.  Decimal notation for
numbers is produced from Mathlib's `Nat.digits` (most significant digit
first), which is extensionally the usual decimal printer and comes with the
round-trip lemmas the proof of the serialization round-trip needs. -/

/-- Digit emission: prepend the decimal digits of `n` (most significant
first) to `acc`; `fuel` bounds the recursion and any `fuel ≥ n` is enough. -/
def natCharsAux : Nat → Nat → List Char → List Char
  | 0, _, acc => acc
  | fuel + 1, n, acc =>
      if n = 0 then acc
      else natCharsAux fuel (n / 10) (Nat.digitChar (n % 10) :: acc)

/-- Decimal digits of a natural number, most significant first. -/
def natChars (n : Nat) : List Char :=
  if n = 0 then ['0'] else natCharsAux n n []

/-- Decimal notation of an integer. -/
def intChars : Int → List Char
  | .ofNat n => natChars n
  | .negSucc m => '-' :: natChars (m + 1)

/-- JSON string escaping of one character.  Quotes and backslashes are
escaped, as are the common control characters; other characters are kept
as-is (a harmless simplification of the \u escapes `JSON.stringify`
applies to the remaining control characters — it does not affect the
round-trip property). -/
def escChar (c : Char) : List Char :=
  if c = '"' then ['\\', '"']
  else if c = '\\' then ['\\', '\\']
  else if c = '\n' then ['\\', 'n']
  else if c = '\t' then ['\\', 't']
  else if c = '\r' then ['\\', 'r']
  else [c]

/-- JSON string escaping of a character sequence. -/
def escString (s : List Char) : List Char :=
  (s.map escChar).flatten

mutual
/-- Model of `JSON.stringify` producing a character list (no whitespace,
object fields in order, as the platform emits them). -/
def Json.stringifyL : Json → List Char
  | .null => "null".data
  | .bool true => "true".data
  | .bool false => "false".data
  | .num n => intChars n
  | .str s => '"' :: (escString s.data ++ ['"'])
  | .arr [] => ['[', ']']
  | .arr (x :: xs) => '[' :: (Json.stringifyItems x xs ++ [']'])
  | .obj [] => ['{', '}']
  | .obj (kv :: kvs) => '{' :: (Json.stringifyMembers kv kvs ++ ['}'])
termination_by j => sizeOf j

/-- Comma-separated serialization of the elements of a non-empty array. -/
def Json.stringifyItems : Json → List Json → List Char
  | x, [] => Json.stringifyL x
  | x, y :: ys => Json.stringifyL x ++ ',' :: Json.stringifyItems y ys
termination_by x xs => sizeOf x + sizeOf xs

/-- Comma-separated serialization of the members of a non-empty object. -/
def Json.stringifyMembers : String × Json → List (String × Json) → List Char
  | (k, v), [] => '"' :: (escString k.data ++ '"' :: ':' :: Json.stringifyL v)
  | (k, v), m :: ms =>
      '"' :: (escString k.data ++ '"' :: ':' ::
        (Json.stringifyL v ++ ',' :: Json.stringifyMembers m ms))
termination_by kv kvs => sizeOf kv + sizeOf kvs
end

/-- Model of `JSON.stringify` as a string. -/
def Json.stringify (j : Json) : String := ⟨Json.stringifyL j⟩

/-! ### The outbound request and the response handling -/

/-- The single outbound `fetch` call the source makes: its URL and the
fields of the options object built at lines 5-10 of `api.js`.  `body` is
`none` when the option is `null` (fetch then sends no request body). -/
structure FetchRequest where
  url : String
  method : String
  credentials : String
  headers : List (String × String)
  body : Option String
deriving Repr

/-- `const API_BASE = '/api'` (line 2 of `api.js`). -/
def API_BASE : String := "/api"

/-- The request `api path method body` sends, traced from lines 5-10 of
the source; default arguments mirror `method = "GET", body = null`.
The body option is `JSON.stringify(body)` when `body` is truthy and null
otherwise (`body ? JSON.stringify(body) : null`). -/
def mkFetchRequest (path : String) (method : String := "GET")
    (body : Option Json := none) : FetchRequest :=
  { url := API_BASE ++ path
    method := method
    credentials := "include"
    headers := [("Content-Type", "application/json")]
    body :=
      match body with
      | some b => if b.truthy then some (Json.stringify b) else none
      | none => none }

/-- The server's response, abstracted by what the source observes: the
numeric status (from which `res.ok` is derived) and the result of
`res.json()` — `some v` when the body parses as JSON value `v`, `none`
when reading or parsing the body fails. -/
structure ServerResponse where
  status : Nat
  jsonBody : Option Json

/-- The failure message built on the non-success path (lines 13-15):
default "Request failed (status)", replaced by `j.message` when the body
parses as JSON exposing a truthy `message` property (a non-string message
is coerced by `new Error`). -/
def errMsg (status : Nat) (jsonBody : Option Json) : String :=
  let dflt := "Request failed (" ++ toString status ++ ")"
  match jsonBody with
  | some j =>
      match j.getMessage with
      | some m => if m.truthy then m.jsToString else dflt
      | none => dflt
  | none => dflt

/-- The outcome of one `api` call: the promise resolves with a JSON value
(`return res.json()`), rejects with an `Error` carrying a message
(`throw new Error(msg)`), or rejects with the unhandled `res.json()`
parse failure on the success path. -/
inductive ApiOutcome where
  | resolve : Json → ApiOutcome
  | rejectError : String → ApiOutcome
  | rejectParse : ApiOutcome
deriving Repr

/-- Response handling of `api` (lines 12-18): on `!res.ok` throw an
`Error` with the extracted or default message (any failure of
`res.json()` inside the `try` is swallowed by the empty `catch`);
otherwise return `res.json()`, whose parse failure, if any, propagates. -/
def apiOutcome (resp : ServerResponse) : ApiOutcome :=
  if !responseOk resp.status then
    .rejectError (errMsg resp.status resp.jsonBody)
  else
    match resp.jsonBody with
    | some v => .resolve v
    | none => .rejectParse

/-- One whole run of `api path method body` against a response: the list
of outbound fetch calls it performs, in order, and the outcome.  The
source calls `fetch` exactly once, unconditionally, before any branching. -/
def apiRun (path : String) (method : String := "GET")
    (body : Option Json := none) (resp : ServerResponse) :
    List FetchRequest × ApiOutcome :=
  ([mkFetchRequest path method body], apiOutcome resp)

/-! ### Model of the platform's JSON parsing

`JSON.parse` is modelled on character lists, with a numeric fuel bounding
the nesting depth (the input length plus one is always enough).  The
grammar implemented is the whitespace-free fragment `JSON.stringify`
emits, which is all the round-trip property needs. -/

/-- Numeric value of a decimal digit character. -/
def digitVal (c : Char) : Nat := c.toNat - '0'.toNat

/-- Decimal value of a digit string, most significant digit first. -/
def digitsToNat (ds : List Char) : Nat :=
  ds.foldl (fun acc c => 10 * acc + digitVal c) 0

/-- Split a character list into its longest digit-character prefix and the
remainder. -/
def takeDigits : List Char → List Char × List Char
  | [] => ([], [])
  | c :: rest =>
      if c.isDigit then
        let p := takeDigits rest
        (c :: p.1, p.2)
      else ([], c :: rest)

/-- Inverse of `escChar` on the escaped character following a backslash. -/
def unescChar (c : Char) : Option Char :=
  if c = '"' then some '"'
  else if c = '\\' then some '\\'
  else if c = 'n' then some '\n'
  else if c = 't' then some '\t'
  else if c = 'r' then some '\r'
  else none

/-- Parse the contents of a JSON string after the opening quote, up to and
consuming the closing quote; returns the unescaped characters and the
remaining input. -/
def parseStrChars : List Char → Option (List Char × List Char)
  | [] => none
  | c :: rest =>
      if c = '"' then some ([], rest)
      else if c = '\\' then
        match rest with
        | [] => none
        | e :: rest2 =>
            (unescChar e).bind fun u =>
              (parseStrChars rest2).map fun sr => (u :: sr.1, sr.2)
      else
        (parseStrChars rest).map fun sr => (c :: sr.1, sr.2)

mutual
/-- Parse one JSON value from the front of the input. -/
def parseVal : Nat → List Char → Option (Json × List Char)
  | 0, _ => none
  | _ + 1, [] => none
  | fuel + 1, c :: rest =>
      if c = 'n' then
        match rest with
        | 'u' :: 'l' :: 'l' :: r => some (.null, r)
        | _ => none
      else if c = 't' then
        match rest with
        | 'r' :: 'u' :: 'e' :: r => some (.bool true, r)
        | _ => none
      else if c = 'f' then
        match rest with
        | 'a' :: 'l' :: 's' :: 'e' :: r => some (.bool false, r)
        | _ => none
      else if c = '"' then
        (parseStrChars rest).map fun sr => (.str ⟨sr.1⟩, sr.2)
      else if c = '[' then
        match rest with
        | ']' :: r => some (.arr [], r)
        | _ => (parseItems fuel rest).map fun xr => (.arr xr.1, xr.2)
      else if c = '{' then
        match rest with
        | '}' :: r => some (.obj [], r)
        | _ => (parseMembers fuel rest).map fun mr => (.obj mr.1, mr.2)
      else if c = '-' then
        match takeDigits rest with
        | ([], _) => none
        | (ds, r) => some (.num (-(digitsToNat ds : Int)), r)
      else if c.isDigit then
        match takeDigits (c :: rest) with
        | (ds, r) => some (.num (digitsToNat ds : Int), r)
      else none

/-- Parse the comma-separated elements of a non-empty array, up to and
consuming the closing bracket. -/
def parseItems : Nat → List Char → Option (List Json × List Char)
  | 0, _ => none
  | fuel + 1, input =>
      (parseVal fuel input).bind fun jr =>
        match jr.2 with
        | ',' :: r2 => (parseItems fuel r2).map fun xr => (jr.1 :: xr.1, xr.2)
        | ']' :: r2 => some ([jr.1], r2)
        | _ => none

/-- Parse the comma-separated members of a non-empty object, up to and
consuming the closing brace. -/
def parseMembers : Nat → List Char → Option (List (String × Json) × List Char)
  | 0, _ => none
  | fuel + 1, input =>
      match input with
      | '"' :: rest =>
          (parseStrChars rest).bind fun kr =>
            match kr.2 with
            | ':' :: r2 =>
                (parseVal fuel r2).bind fun vr =>
                  match vr.2 with
                  | ',' :: r4 =>
                      (parseMembers fuel r4).map fun mr =>
                        ((⟨kr.1⟩, vr.1) :: mr.1, mr.2)
                  | '}' :: r4 => some ([(⟨kr.1⟩, vr.1)], r4)
                  | _ => none
            | _ => none
      | _ => none
end

/-- Model of `JSON.parse`: parse one JSON value consuming the whole input. -/
def Json.parse (s : String) : Option Json :=
  match parseVal (s.length + 1) s.data with
  | some (j, []) => some j
  | _ => none

/-- The remaining input a parse of one value may be followed by: empty, or
not starting with a digit (so that number parsing stops at the value's
end).  Holds for the terminators the grammar produces (comma, brackets)
and for the empty remainder of a whole-input parse. -/
def noDigitHead : List Char → Prop
  | [] => True
  | c :: _ => c.isDigit = false

mutual
/-- Fuel sufficient for `parseVal` to parse the serialization of a value. -/
def Json.pfuel : Json → Nat
  | .null => 1
  | .bool _ => 1
  | .num _ => 1
  | .str _ => 1
  | .arr [] => 1
  | .arr (x :: xs) => 1 + Json.pfuelItems x xs
  | .obj [] => 1
  | .obj (kv :: kvs) => 1 + Json.pfuelMembers kv kvs
termination_by j => sizeOf j

/-- Fuel sufficient for `parseItems` on a serialized non-empty array. -/
def Json.pfuelItems : Json → List Json → Nat
  | x, [] => 1 + Json.pfuel x
  | x, y :: ys => 1 + max (Json.pfuel x) (Json.pfuelItems y ys)
termination_by x xs => sizeOf x + sizeOf xs

/-- Fuel sufficient for `parseMembers` on a serialized non-empty object. -/
def Json.pfuelMembers : String × Json → List (String × Json) → Nat
  | (_, v), [] => 1 + Json.pfuel v
  | (_, v), m :: ms => 1 + max (Json.pfuel v) (Json.pfuelMembers m ms)
termination_by kv kvs => sizeOf kv + sizeOf kvs
end

/-! ### Claim theorems: response handling -/

/-- C1: for every call where the server responds with a success status and
a body that is valid JSON, the promise resolves with exactly the parsed
JSON response body. -/
theorem api_success_resolves_body (status : Nat) (v : Json)
    (hok : responseOk status = true) :
    apiOutcome ⟨status, some v⟩ = ApiOutcome.resolve v := by
  simp [apiOutcome, hok]

/-- Witness for C1: status 200 with body containing a token resolves with
that body (the spec's concrete login scenario). -/
theorem api_success_resolves_body_witness :
    responseOk 200 = true ∧
    apiOutcome ⟨200, some (Json.obj [("token", Json.str "xyz")])⟩ =
      ApiOutcome.resolve (Json.obj [("token", Json.str "xyz")]) :=
  ⟨by decide, api_success_resolves_body 200 _ (by decide)⟩

/-- Counterexample to C2 as stated: a non-success response whose JSON body
has a `message` field holding the empty string does not reject with that
value — the falsy check `if (j?.message)` skips it and the default message
is used instead. -/
theorem api_empty_message_ignored :
    apiOutcome ⟨404, some (Json.obj [("message", Json.str "")])⟩ ≠
      ApiOutcome.rejectError "" ∧
    apiOutcome ⟨404, some (Json.obj [("message", Json.str "")])⟩ =
      ApiOutcome.rejectError "Request failed (404)" := by
  constructor
  · intro h
    rw [show apiOutcome ⟨404, some (Json.obj [("message", Json.str "")])⟩ =
          ApiOutcome.rejectError "Request failed (404)" from rfl] at h
    injection h with h2
    exact absurd h2 (by decide)
  · rfl

/-- C2 (amended): for every call where the server responds with a
non-success status and a JSON body whose `message` field holds a
non-empty string, the promise rejects with an Error whose message equals
that string exactly. -/
theorem api_message_field_used (status : Nat) (j : Json) (s : String)
    (hok : responseOk status = false)
    (hmsg : j.getMessage = some (Json.str s)) (hne : s ≠ "") :
    apiOutcome ⟨status, some j⟩ = ApiOutcome.rejectError s := by
  have hs : s.isEmpty = false := by
    cases h : s.isEmpty
    · rfl
    · exact absurd ((String.isEmpty_iff s).mp h) hne
  simp [apiOutcome, hok, errMsg, hmsg, Json.truthy, hs, Json.jsToString]

/-- Witness for C2 (amended): the spec's concrete scenario — status 404
with body carrying message "not found" rejects with "not found". -/
theorem api_message_field_used_witness :
    responseOk 404 = false ∧
    (Json.obj [("message", Json.str "not found")]).getMessage =
      some (Json.str "not found") ∧
    apiOutcome ⟨404, some (Json.obj [("message", Json.str "not found")])⟩ =
      ApiOutcome.rejectError "not found" :=
  ⟨by decide, rfl, api_message_field_used 404 _ "not found" (by decide) rfl (by decide)⟩

/-- C3: for every call where the server responds with a non-success status
and a body that is not valid JSON, or is valid JSON without a `message`
field, the promise rejects with the default message embedding the exact
numeric status code, "Request failed (status)". -/
theorem api_default_message (status : Nat) (jb : Option Json)
    (hok : responseOk status = false)
    (hmsg : jb.bind Json.getMessage = none) :
    apiOutcome ⟨status, jb⟩ =
      ApiOutcome.rejectError ("Request failed (" ++ toString status ++ ")") := by
  cases jb with
  | none => simp [apiOutcome, hok, errMsg]
  | some j =>
      simp [apiOutcome, hok, errMsg, show Json.getMessage j = none from hmsg]

/-- Witness for C3: the spec's concrete scenario — status 503 with an
unparseable (empty) body rejects with message "Request failed (503)". -/
theorem api_default_message_witness :
    responseOk 503 = false ∧
    (Option.bind (none : Option Json) Json.getMessage = none) ∧
    apiOutcome ⟨503, none⟩ =
      ApiOutcome.rejectError ("Request failed (" ++ toString 503 ++ ")") ∧
    ("Request failed (" ++ toString 503 ++ ")" : String) = "Request failed (503)" :=
  ⟨by decide, rfl, api_default_message 503 none (by decide) rfl, by decide⟩

/-- C7: a success-status response whose body is not valid JSON makes the
call reject with the propagated parse failure, not with a normalized
"Request failed" Error. -/
theorem api_success_bad_body_propagates (status : Nat)
    (hok : responseOk status = true) :
    apiOutcome ⟨status, none⟩ = ApiOutcome.rejectParse ∧
    ∀ m : String, apiOutcome ⟨status, none⟩ ≠ ApiOutcome.rejectError m := by
  refine ⟨by simp [apiOutcome, hok], ?_⟩
  intro m h
  rw [show apiOutcome ⟨status, none⟩ = ApiOutcome.rejectParse from by
    simp [apiOutcome, hok]] at h
  exact ApiOutcome.noConfusion h

/-- Witness for C7: a 200 response with an unparseable body. -/
theorem api_success_bad_body_propagates_witness :
    responseOk 200 = true ∧
    (apiOutcome ⟨200, none⟩ = ApiOutcome.rejectParse ∧
     ∀ m : String, apiOutcome ⟨200, none⟩ ≠ ApiOutcome.rejectError m) :=
  ⟨by decide, api_success_bad_body_propagates 200 (by decide)⟩

/-- C10: on every non-success response the call rejects with an Error
carrying a message string — any failure reading or parsing the error body
(modelled by `jsonBody = none`) is swallowed and never surfaces as the
parse failure itself. -/
theorem api_error_always_message (status : Nat) (jb : Option Json)
    (hok : responseOk status = false) :
    apiOutcome ⟨status, jb⟩ = ApiOutcome.rejectError (errMsg status jb) ∧
    apiOutcome ⟨status, jb⟩ ≠ ApiOutcome.rejectParse := by
  refine ⟨by simp [apiOutcome, hok], ?_⟩
  intro h
  rw [show apiOutcome ⟨status, jb⟩ = ApiOutcome.rejectError (errMsg status jb) from by
    simp [apiOutcome, hok]] at h
  exact ApiOutcome.noConfusion h

/-- Witness for C10: a 500 response whose body fails to parse still
rejects with a message Error (the default one). -/
theorem api_error_always_message_witness :
    responseOk 500 = false ∧
    (apiOutcome ⟨500, none⟩ = ApiOutcome.rejectError (errMsg 500 none) ∧
     apiOutcome ⟨500, none⟩ ≠ ApiOutcome.rejectParse) ∧
    errMsg 500 none = "Request failed (500)" :=
  ⟨by decide, api_error_always_message 500 none (by decide), by decide⟩

/-! ### Claim theorems: request construction -/

/-- C5: when no body argument is given (the source's default `body = null`),
the outbound request carries no body. -/
theorem api_omitted_body_none (path method : String) :
    (mkFetchRequest path method none).body = none := rfl

/-- C6: the single outbound request has URL = fixed base prefix ++ path,
the caller's method (defaulting to GET), credentials mode "include", and a
JSON content-type header. -/
theorem api_request_construction (path method : String) (body : Option Json) :
    (mkFetchRequest path method body).url = API_BASE ++ path ∧
    API_BASE = "/api" ∧
    (mkFetchRequest path method body).method = method ∧
    (mkFetchRequest path).method = "GET" ∧
    (mkFetchRequest path method body).credentials = "include" ∧
    (mkFetchRequest path method body).headers =
      [("Content-Type", "application/json")] :=
  ⟨rfl, rfl, rfl, rfl, rfl, rfl⟩

/-- C8: every invocation performs exactly one outbound fetch call — the
trace of outbound requests is a singleton whatever the response. -/
theorem api_exactly_one_call (path method : String) (body : Option Json)
    (resp : ServerResponse) :
    (apiRun path method body resp).1 = [mkFetchRequest path method body] ∧
    (apiRun path method body resp).1.length = 1 :=
  ⟨rfl, rfl⟩

/-- C9: a falsy body argument (0, "", false, null) is treated by
`body ? JSON.stringify(body) : null` exactly like an omitted body: the
whole outbound request is the same as with no body. -/
theorem api_falsy_body_like_omitted (path method : String) (b : Json)
    (hb : b.truthy = false) :
    mkFetchRequest path method (some b) = mkFetchRequest path method none := by
  simp [mkFetchRequest, hb]

/-- Witness for C9: body 0 yields the identical request to an omitted
body. -/
theorem api_falsy_body_like_omitted_witness :
    (Json.num 0).truthy = false ∧
    mkFetchRequest "/expenses" "POST" (some (Json.num 0)) =
      mkFetchRequest "/expenses" "POST" none :=
  ⟨by decide, api_falsy_body_like_omitted "/expenses" "POST" _ (by decide)⟩

/-! ### Round-trip of the JSON serialization: digit lemmas -/

theorem natCharsAux_eq (fuel : Nat) : ∀ (n : Nat) (acc : List Char), n ≤ fuel →
    natCharsAux fuel n acc = ((Nat.digits 10 n).map Nat.digitChar).reverse ++ acc := by
  induction fuel with
  | zero =>
      intro n acc hn
      interval_cases n
      simp [natCharsAux]
  | succ fuel ih =>
      intro n acc hn
      by_cases h0 : n = 0
      · subst h0; simp [natCharsAux]
      · rw [show natCharsAux (fuel + 1) n acc =
              natCharsAux fuel (n / 10) (Nat.digitChar (n % 10) :: acc) from by
            simp [natCharsAux, h0]]
        rw [ih (n / 10) _ (by omega)]
        rw [Nat.digits_def' (by norm_num : (1:Nat) < 10) (Nat.pos_of_ne_zero h0)]
        simp

theorem natChars_eq (n : Nat) (hn : n ≠ 0) :
    natChars n = ((Nat.digits 10 n).map Nat.digitChar).reverse := by
  rw [show natChars n = natCharsAux n n [] from by simp [natChars, hn]]
  rw [natCharsAux_eq n n [] le_rfl]
  simp

theorem digitChar_isDigit : ∀ d : Nat, d < 10 → (Nat.digitChar d).isDigit = true := by
  decide

theorem digitVal_digitChar : ∀ d : Nat, d < 10 → digitVal (Nat.digitChar d) = d := by
  decide

theorem natChars_all_digits (n : Nat) : ∀ c ∈ natChars n, c.isDigit = true := by
  by_cases h0 : n = 0
  · subst h0; intro c hc; simp [natChars] at hc; subst hc; decide
  · rw [natChars_eq n h0]
    intro c hc
    rw [List.mem_reverse, List.mem_map] at hc
    obtain ⟨d, hd, rfl⟩ := hc
    exact digitChar_isDigit d (Nat.digits_lt_base (by norm_num) hd)

theorem natChars_ne_nil (n : Nat) : natChars n ≠ [] := by
  by_cases h0 : n = 0
  · subst h0; simp [natChars]
  · rw [natChars_eq n h0]
    simp [Nat.digits_ne_nil_iff_ne_zero, h0]

theorem takeDigits_append : ∀ (ds rest : List Char),
    (∀ c ∈ ds, c.isDigit = true) → noDigitHead rest →
    takeDigits (ds ++ rest) = (ds, rest) := by
  intro ds
  induction ds with
  | nil =>
      intro rest _ hrest
      cases rest with
      | nil => simp [takeDigits]
      | cons c r =>
          simp only [noDigitHead] at hrest
          simp [takeDigits, hrest]
  | cons c ds ih =>
      intro rest hds hrest
      have hc : c.isDigit = true := hds c (by simp)
      simp only [List.cons_append, takeDigits, hc, if_pos, List.append_eq]
      rw [ih rest (fun x hx => hds x (by simp [hx])) hrest]

theorem foldr_digits_ofDigits : ∀ L : List Nat, (∀ d ∈ L, d < 10) →
    L.foldr (fun d acc => 10 * acc + d) 0 = Nat.ofDigits 10 L := by
  intro L
  induction L with
  | nil => intro; simp [Nat.ofDigits]
  | cons d L ih =>
      intro h
      rw [List.foldr_cons, ih (fun x hx => h x (by simp [hx])), Nat.ofDigits_cons]
      omega

theorem digitsToNat_natChars (n : Nat) : digitsToNat (natChars n) = n := by
  by_cases h0 : n = 0
  · subst h0; decide
  · rw [natChars_eq n h0]
    unfold digitsToNat
    rw [List.foldl_reverse]
    rw [List.foldr_map]
    have hlt : ∀ d ∈ Nat.digits 10 n, d < 10 :=
      fun d hd => Nat.digits_lt_base (by norm_num) hd
    have hfold : (Nat.digits 10 n).foldr
        (fun y x => 10 * x + digitVal (Nat.digitChar y)) 0 =
        (Nat.digits 10 n).foldr (fun d acc => 10 * acc + d) 0 :=
      List.foldr_ext _ _ _ (fun d hd acc => by rw [digitVal_digitChar d (hlt d hd)])
    rw [hfold]
    rw [foldr_digits_ofDigits _ hlt]
    exact Nat.ofDigits_digits 10 n

/-! ### Round-trip: string escaping and leading characters -/

theorem parseStrChars_escape : ∀ (s rest : List Char),
    parseStrChars (escString s ++ '"' :: rest) = some (s, rest) := by
  intro s
  induction s with
  | nil =>
      intro rest
      rw [show escString [] ++ '"' :: rest = '"' :: rest from by simp [escString]]
      rw [parseStrChars.eq_def]
      simp
  | cons c s ih =>
      intro rest
      rw [show escString (c :: s) ++ '"' :: rest =
            escChar c ++ (escString s ++ '"' :: rest) from by simp [escString]]
      by_cases h1 : c = '"'
      · subst h1
        rw [show escChar '"' ++ (escString s ++ '"' :: rest) =
              '\\' :: '"' :: (escString s ++ '"' :: rest) from by simp [escChar]]
        rw [parseStrChars.eq_def]
        simp [unescChar, ih]
      · by_cases h2 : c = '\\'
        · subst h2
          rw [show escChar '\\' ++ (escString s ++ '"' :: rest) =
                '\\' :: '\\' :: (escString s ++ '"' :: rest) from by simp [escChar]]
          rw [parseStrChars.eq_def]
          simp [unescChar, ih]
        · by_cases h3 : c = '\n'
          · subst h3
            rw [show escChar '\n' ++ (escString s ++ '"' :: rest) =
                  '\\' :: 'n' :: (escString s ++ '"' :: rest) from by simp [escChar]]
            rw [parseStrChars.eq_def]
            simp [unescChar, ih]
          · by_cases h4 : c = '\t'
            · subst h4
              rw [show escChar '\t' ++ (escString s ++ '"' :: rest) =
                    '\\' :: 't' :: (escString s ++ '"' :: rest) from by simp [escChar]]
              rw [parseStrChars.eq_def]
              simp [unescChar, ih]
            · by_cases h5 : c = '\r'
              · subst h5
                rw [show escChar '\r' ++ (escString s ++ '"' :: rest) =
                      '\\' :: 'r' :: (escString s ++ '"' :: rest) from by
                    simp [escChar]]
                rw [parseStrChars.eq_def]
                simp [unescChar, ih]
              · rw [show escChar c ++ (escString s ++ '"' :: rest) =
                      c :: (escString s ++ '"' :: rest) from by
                    simp [escChar, h1, h2, h3, h4, h5]]
                rw [parseStrChars.eq_def]
                simp [h1, h2, ih]

theorem stringifyL_head : ∀ j : Json,
    ∃ c cs, Json.stringifyL j = c :: cs ∧ c ≠ ']' := by
  intro j
  cases j with
  | null => exact ⟨'n', ['u', 'l', 'l'], by rw [Json.stringifyL], by decide⟩
  | bool b =>
      cases b with
      | true => exact ⟨'t', ['r', 'u', 'e'], by rw [Json.stringifyL], by decide⟩
      | false => exact ⟨'f', ['a', 'l', 's', 'e'], by rw [Json.stringifyL], by decide⟩
  | num n =>
      cases n with
      | ofNat m =>
          cases hD : natChars m with
          | nil => exact absurd hD (natChars_ne_nil m)
          | cons c cs =>
              refine ⟨c, cs, by rw [Json.stringifyL, intChars, hD], ?_⟩
              have hc : c.isDigit = true :=
                natChars_all_digits m c (by rw [hD]; simp)
              intro h
              rw [h] at hc
              exact absurd hc (by decide)
      | negSucc m =>
          exact ⟨'-', natChars (m + 1), by rw [Json.stringifyL, intChars], by decide⟩
  | str s =>
      exact ⟨'"', escString s.data ++ ['"'], by rw [Json.stringifyL], by decide⟩
  | arr xs =>
      cases xs with
      | nil => exact ⟨'[', [']'], by rw [Json.stringifyL], by decide⟩
      | cons x xs =>
          exact ⟨'[', Json.stringifyItems x xs ++ [']'],
            by rw [Json.stringifyL], by decide⟩
  | obj kvs =>
      cases kvs with
      | nil => exact ⟨'{', ['}'], by rw [Json.stringifyL], by decide⟩
      | cons kv kvs =>
          exact ⟨'{', Json.stringifyMembers kv kvs ++ ['}'],
            by rw [Json.stringifyL], by decide⟩

theorem stringifyItems_head : ∀ (x : Json) (xs : List Json),
    ∃ c cs, Json.stringifyItems x xs = c :: cs ∧ c ≠ ']' := by
  intro x xs
  obtain ⟨c, cs, hx, hc⟩ := stringifyL_head x
  cases xs with
  | nil => exact ⟨c, cs, by rw [Json.stringifyItems, hx], hc⟩
  | cons y ys =>
      exact ⟨c, cs ++ ',' :: Json.stringifyItems y ys,
        by rw [Json.stringifyItems, hx]; simp, hc⟩

theorem stringifyMembers_head : ∀ (kv : String × Json) (kvs : List (String × Json)),
    ∃ cs, Json.stringifyMembers kv kvs = '"' :: cs := by
  intro kv kvs
  obtain ⟨k, v⟩ := kv
  cases kvs with
  | nil => exact ⟨escString k.data ++ '"' :: ':' :: Json.stringifyL v,
      by rw [Json.stringifyMembers]⟩
  | cons m ms =>
      exact ⟨escString k.data ++ '"' :: ':' ::
          (Json.stringifyL v ++ ',' :: Json.stringifyMembers m ms),
        by rw [Json.stringifyMembers]⟩

theorem pfuel_pos : ∀ j : Json, 0 < Json.pfuel j := by
  intro j
  cases j with
  | arr xs => cases xs <;> simp [Json.pfuel]
  | obj kvs => cases kvs <;> simp [Json.pfuel]
  | _ => simp [Json.pfuel]

theorem pfuelItems_pos : ∀ (x : Json) (xs : List Json), 0 < Json.pfuelItems x xs := by
  intro x xs
  cases xs <;> simp [Json.pfuelItems]

theorem pfuelMembers_pos : ∀ (kv : String × Json) (kvs : List (String × Json)),
    0 < Json.pfuelMembers kv kvs := by
  intro kv kvs
  obtain ⟨k, v⟩ := kv
  cases kvs <;> simp [Json.pfuelMembers]

/-! ### Round-trip: parser-equation helpers -/

theorem noDigitHead_nil : noDigitHead [] := trivial

theorem noDigitHead_cons (c : Char) (l : List Char) (h : c.isDigit = false) :
    noDigitHead (c :: l) := h

set_option maxHeartbeats 1000000 in
theorem parseVal_digit (fuel : Nat) (c : Char) (rest ds r : List Char)
    (hc : c.isDigit = true) (htd : takeDigits (c :: rest) = (ds, r)) :
    parseVal (fuel + 1) (c :: rest) =
      some (Json.num (digitsToNat ds : Int), r) := by
  have hne : ∀ x : Char, x.isDigit = false → ¬ c = x := by
    intro x hx h
    rw [h] at hc
    rw [hc] at hx
    exact Bool.noConfusion hx
  rw [parseVal.eq_def]
  simp only []
  rw [if_neg (hne 'n' (by decide)), if_neg (hne 't' (by decide)),
    if_neg (hne 'f' (by decide)), if_neg (hne '"' (by decide)),
    if_neg (hne '[' (by decide)), if_neg (hne '{' (by decide)),
    if_neg (hne '-' (by decide)), if_pos hc, htd]

set_option maxHeartbeats 1000000 in
theorem parseVal_neg (fuel : Nat) (rest ds r : List Char)
    (hne : ds ≠ []) (htd : takeDigits rest = (ds, r)) :
    parseVal (fuel + 1) ('-' :: rest) =
      some (Json.num (-(digitsToNat ds : Int)), r) := by
  rw [parseVal.eq_def]
  simp only []
  cases ds with
  | nil => exact absurd rfl hne
  | cons d ds => simp [htd]

set_option maxHeartbeats 1000000 in
theorem parseVal_arrCons (fuel : Nat) (c : Char) (cs : List Char) (hcne : c ≠ ']') :
    parseVal (fuel + 1) ('[' :: c :: cs) =
      Option.map (fun xr => (Json.arr xr.1, xr.2)) (parseItems fuel (c :: cs)) := by
  rw [parseVal.eq_def]
  simp only []
  simp
  split
  · rename_i r heq
    injection heq with h1 h2
    exact absurd h1 hcne
  · rfl

set_option maxHeartbeats 1000000 in
theorem parseVal_objCons (fuel : Nat) (c : Char) (cs : List Char) (hcne : c ≠ '}') :
    parseVal (fuel + 1) ('{' :: c :: cs) =
      Option.map (fun mr => (Json.obj mr.1, mr.2)) (parseMembers fuel (c :: cs)) := by
  rw [parseVal.eq_def]
  simp only []
  simp
  split
  · rename_i r heq
    injection heq with h1 h2
    exact absurd h1 hcne
  · rfl

set_option maxHeartbeats 2000000 in
mutual
theorem parseVal_rt : ∀ (fuel : Nat) (b : Json) (rest : List Char),
    Json.pfuel b ≤ fuel → noDigitHead rest →
    parseVal fuel (Json.stringifyL b ++ rest) = some (b, rest)
  | 0, b, _, hle, _ =>
      absurd (Nat.lt_of_lt_of_le (pfuel_pos b) hle) (Nat.lt_irrefl 0)
  | fuel + 1, b, rest, hle, hrest => by
      cases b with
      | null =>
          rw [show Json.stringifyL Json.null ++ rest =
                'n' :: 'u' :: 'l' :: 'l' :: rest from by rw [Json.stringifyL]; rfl]
          rw [parseVal.eq_def]
          simp only []
          simp
      | bool bv =>
          cases bv with
          | true =>
              rw [show Json.stringifyL (Json.bool true) ++ rest =
                    't' :: 'r' :: 'u' :: 'e' :: rest from by rw [Json.stringifyL]; rfl]
              rw [parseVal.eq_def]
              simp only []
              simp
          | false =>
              rw [show Json.stringifyL (Json.bool false) ++ rest =
                    'f' :: 'a' :: 'l' :: 's' :: 'e' :: rest from by
                  rw [Json.stringifyL]; rfl]
              rw [parseVal.eq_def]
              simp only []
              simp
      | num n =>
          cases n with
          | ofNat m =>
              cases hD : natChars m with
              | nil => exact absurd hD (natChars_ne_nil m)
              | cons c cs =>
                  have hc : c.isDigit = true :=
                    natChars_all_digits m c (by rw [hD]; simp)
                  have htd : takeDigits (c :: (cs ++ rest)) = (natChars m, rest) := by
                    rw [show c :: (cs ++ rest) = natChars m ++ rest from by
                      rw [hD]; simp]
                    exact takeDigits_append _ _ (natChars_all_digits m) hrest
                  rw [show Json.stringifyL (Json.num (Int.ofNat m)) ++ rest =
                        c :: (cs ++ rest) from by
                    rw [Json.stringifyL, intChars, hD]; simp]
                  rw [parseVal_digit fuel c (cs ++ rest) (natChars m) rest hc htd]
                  rw [digitsToNat_natChars]
                  rfl
          | negSucc m =>
              have htd : takeDigits (natChars (m + 1) ++ rest) =
                  (natChars (m + 1), rest) :=
                takeDigits_append _ _ (natChars_all_digits (m + 1)) hrest
              rw [show Json.stringifyL (Json.num (Int.negSucc m)) ++ rest =
                    '-' :: (natChars (m + 1) ++ rest) from by
                rw [Json.stringifyL, intChars]; simp]
              rw [parseVal_neg fuel _ _ _ (natChars_ne_nil (m + 1)) htd]
              rw [digitsToNat_natChars]
              simp [Int.negSucc_eq]
      | str s =>
          rw [show Json.stringifyL (Json.str s) ++ rest =
                '"' :: (escString s.data ++ '"' :: rest) from by
            rw [Json.stringifyL]; simp]
          rw [parseVal.eq_def]
          simp only []
          simp [parseStrChars_escape]
      | arr xs =>
          cases xs with
          | nil =>
              rw [show Json.stringifyL (Json.arr []) ++ rest =
                    '[' :: ']' :: rest from by rw [Json.stringifyL]; rfl]
              rw [parseVal.eq_def]
              simp only []
              simp
          | cons x xs =>
              obtain ⟨c, cs, hI, hcne⟩ := stringifyItems_head x xs
              have hpf : Json.pfuelItems x xs ≤ fuel := by
                rw [Json.pfuel] at hle
                omega
              rw [show Json.stringifyL (Json.arr (x :: xs)) ++ rest =
                    '[' :: (c :: (cs ++ ']' :: rest)) from by
                rw [Json.stringifyL, hI]; simp]
              rw [parseVal_arrCons fuel c _ hcne]
              rw [show c :: (cs ++ ']' :: rest) =
                    Json.stringifyItems x xs ++ ']' :: rest from by rw [hI]; simp]
              rw [parseItems_rt fuel x xs rest hpf]
              rfl
      | obj kvs =>
          cases kvs with
          | nil =>
              rw [show Json.stringifyL (Json.obj []) ++ rest =
                    '{' :: '}' :: rest from by rw [Json.stringifyL]; rfl]
              rw [parseVal.eq_def]
              simp only []
              simp
          | cons kv kvs =>
              obtain ⟨cs, hM⟩ := stringifyMembers_head kv kvs
              have hpf : Json.pfuelMembers kv kvs ≤ fuel := by
                rw [Json.pfuel] at hle
                omega
              rw [show Json.stringifyL (Json.obj (kv :: kvs)) ++ rest =
                    '{' :: ('"' :: (cs ++ '}' :: rest)) from by
                rw [Json.stringifyL, hM]; simp]
              rw [parseVal_objCons fuel '"' _ (by decide)]
              rw [show '"' :: (cs ++ '}' :: rest) =
                    Json.stringifyMembers kv kvs ++ '}' :: rest from by
                rw [hM]; simp]
              rw [parseMembers_rt fuel kv kvs rest hpf]
              rfl
termination_by fuel _ _ _ _ => fuel

theorem parseItems_rt : ∀ (fuel : Nat) (x : Json) (xs : List Json) (rest : List Char),
    Json.pfuelItems x xs ≤ fuel →
    parseItems fuel (Json.stringifyItems x xs ++ ']' :: rest) = some (x :: xs, rest)
  | 0, x, xs, _, hle =>
      absurd (Nat.lt_of_lt_of_le (pfuelItems_pos x xs) hle) (Nat.lt_irrefl 0)
  | fuel + 1, x, xs, rest, hle => by
      cases xs with
      | nil =>
          have hpf : Json.pfuel x ≤ fuel := by
            rw [Json.pfuelItems] at hle
            omega
          rw [show Json.stringifyItems x [] ++ ']' :: rest =
                Json.stringifyL x ++ ']' :: rest from by rw [Json.stringifyItems]]
          rw [parseItems.eq_def]
          simp only []
          rw [parseVal_rt fuel x (']' :: rest) hpf (noDigitHead_cons _ _ (by decide))]
          simp
      | cons y ys =>
          have hpf1 : Json.pfuel x ≤ fuel := by
            rw [Json.pfuelItems] at hle
            have := Nat.le_max_left (Json.pfuel x) (Json.pfuelItems y ys)
            omega
          have hpf2 : Json.pfuelItems y ys ≤ fuel := by
            rw [Json.pfuelItems] at hle
            have := Nat.le_max_right (Json.pfuel x) (Json.pfuelItems y ys)
            omega
          rw [show Json.stringifyItems x (y :: ys) ++ ']' :: rest =
                Json.stringifyL x ++
                  (',' :: (Json.stringifyItems y ys ++ ']' :: rest)) from by
            rw [Json.stringifyItems]; simp]
          rw [parseItems.eq_def]
          simp only []
          rw [parseVal_rt fuel x _ hpf1 (noDigitHead_cons _ _ (by decide))]
          simp only [Option.some_bind]
          rw [parseItems_rt fuel y ys rest hpf2]
          rfl
termination_by fuel _ _ _ _ => fuel

theorem parseMembers_rt : ∀ (fuel : Nat) (kv : String × Json)
    (kvs : List (String × Json)) (rest : List Char),
    Json.pfuelMembers kv kvs ≤ fuel →
    parseMembers fuel (Json.stringifyMembers kv kvs ++ '}' :: rest) =
      some (kv :: kvs, rest)
  | 0, kv, kvs, _, hle =>
      absurd (Nat.lt_of_lt_of_le (pfuelMembers_pos kv kvs) hle) (Nat.lt_irrefl 0)
  | fuel + 1, (k, v), kvs, rest, hle => by
      cases kvs with
      | nil =>
          have hpf : Json.pfuel v ≤ fuel := by
            rw [Json.pfuelMembers] at hle
            omega
          rw [show Json.stringifyMembers (k, v) [] ++ '}' :: rest =
                '"' :: (escString k.data ++
                  '"' :: (':' :: (Json.stringifyL v ++ '}' :: rest))) from by
            rw [Json.stringifyMembers]; simp]
          rw [parseMembers.eq_def]
          simp only []
          rw [parseStrChars_escape]
          simp only [Option.some_bind]
          rw [parseVal_rt fuel v _ hpf (noDigitHead_cons _ _ (by decide))]
          simp
      | cons m ms =>
          have hpf1 : Json.pfuel v ≤ fuel := by
            rw [Json.pfuelMembers] at hle
            have := Nat.le_max_left (Json.pfuel v) (Json.pfuelMembers m ms)
            omega
          have hpf2 : Json.pfuelMembers m ms ≤ fuel := by
            rw [Json.pfuelMembers] at hle
            have := Nat.le_max_right (Json.pfuel v) (Json.pfuelMembers m ms)
            omega
          rw [show Json.stringifyMembers (k, v) (m :: ms) ++ '}' :: rest =
                '"' :: (escString k.data ++
                  '"' :: (':' :: (Json.stringifyL v ++
                    ',' :: (Json.stringifyMembers m ms ++ '}' :: rest)))) from by
            rw [Json.stringifyMembers]; simp]
          rw [parseMembers.eq_def]
          simp only []
          rw [parseStrChars_escape]
          simp only [Option.some_bind]
          rw [parseVal_rt fuel v _ hpf1 (noDigitHead_cons _ _ (by decide))]
          simp only [Option.some_bind]
          rw [parseMembers_rt fuel m ms rest hpf2]
          rfl
termination_by fuel _ _ _ _ => fuel
end

mutual
theorem pfuel_le : ∀ j : Json, Json.pfuel j ≤ (Json.stringifyL j).length
  | .null => by rw [Json.pfuel, Json.stringifyL]; simp
  | .bool true => by rw [Json.pfuel, Json.stringifyL]; simp
  | .bool false => by rw [Json.pfuel, Json.stringifyL]; simp
  | .num (.ofNat m) => by
      rw [Json.pfuel, Json.stringifyL, intChars]
      have := List.length_pos.mpr (natChars_ne_nil m)
      omega
  | .num (.negSucc m) => by
      rw [Json.pfuel, Json.stringifyL, intChars]
      simp
  | .str s => by rw [Json.pfuel, Json.stringifyL]; simp
  | .arr [] => by rw [Json.pfuel, Json.stringifyL]; simp
  | .arr (x :: xs) => by
      rw [Json.pfuel, Json.stringifyL]
      have h := pfuelItems_le x xs
      simp only [List.length_cons, List.length_append, List.length_singleton]
      omega
  | .obj [] => by rw [Json.pfuel, Json.stringifyL]; simp
  | .obj (kv :: kvs) => by
      rw [Json.pfuel, Json.stringifyL]
      have h := pfuelMembers_le kv kvs
      simp only [List.length_cons, List.length_append, List.length_singleton]
      omega
termination_by j => sizeOf j

theorem pfuelItems_le : ∀ (x : Json) (xs : List Json),
    Json.pfuelItems x xs ≤ (Json.stringifyItems x xs).length + 1
  | x, [] => by
      rw [Json.pfuelItems, Json.stringifyItems]
      have h := pfuel_le x
      omega
  | x, y :: ys => by
      rw [Json.pfuelItems, Json.stringifyItems]
      have h1 := pfuel_le x
      have h2 := pfuelItems_le y ys
      simp only [List.length_append, List.length_cons]
      omega
termination_by x xs => sizeOf x + sizeOf xs

theorem pfuelMembers_le : ∀ (kv : String × Json) (kvs : List (String × Json)),
    Json.pfuelMembers kv kvs ≤ (Json.stringifyMembers kv kvs).length + 1
  | (k, v), [] => by
      rw [Json.pfuelMembers, Json.stringifyMembers]
      have h := pfuel_le v
      simp only [List.length_cons, List.length_append]
      omega
  | (k, v), m :: ms => by
      rw [Json.pfuelMembers, Json.stringifyMembers]
      have h1 := pfuel_le v
      have h2 := pfuelMembers_le m ms
      simp only [List.length_cons, List.length_append]
      omega
termination_by kv kvs => sizeOf kv + sizeOf kvs
end

/-- The serialization round-trip: parsing the JSON serialization of any
value recovers the value exactly. -/
theorem Json.parse_stringify (b : Json) : Json.parse (Json.stringify b) = some b := by
  have hfuel : Json.pfuel b ≤ (Json.stringifyL b).length + 1 :=
    le_trans (pfuel_le b) (by omega)
  have h := parseVal_rt ((Json.stringifyL b).length + 1) b [] hfuel noDigitHead_nil
  rw [List.append_nil] at h
  rw [show Json.parse (Json.stringify b) =
        (match parseVal ((Json.stringifyL b).length + 1) (Json.stringifyL b) with
         | some (j, []) => some j
         | _ => none) from rfl]
  rw [h]

/-! ### Claim theorems: body serialization -/

/-- Counterexample to C4 as stated: the body argument `false` is given,
but `body ? JSON.stringify(body) : null` is falsy, so the outbound request
carries no body at all instead of the serialization "false". -/
theorem api_false_body_not_serialized :
    (mkFetchRequest "/x" "POST" (some (Json.bool false))).body = none ∧
    (mkFetchRequest "/x" "POST" (some (Json.bool false))).body ≠
      some (Json.stringify (Json.bool false)) := by
  refine ⟨rfl, ?_⟩
  intro h
  rw [show (mkFetchRequest "/x" "POST" (some (Json.bool false))).body = none
    from rfl] at h
  exact Option.noConfusion h

/-- C4 (amended): for every call in which a truthy body argument is given,
the outbound request's body is exactly the JSON serialization of that
argument, and deserializing the sent body yields the original argument
(round-trip).  Falsy body arguments (0, "", false, null) are sent as no
body at all (see C9). -/
theorem api_truthy_body_serialized (path method : String) (b : Json)
    (hb : b.truthy = true) :
    (mkFetchRequest path method (some b)).body = some (Json.stringify b) ∧
    Json.parse (Json.stringify b) = some b := by
  refine ⟨?_, Json.parse_stringify b⟩
  simp [mkFetchRequest, hb]

/-- Witness for C4 (amended): the spec's login payload is sent as its
serialization and deserializes back to itself. -/
theorem api_truthy_body_serialized_witness :
    (Json.obj [("username", Json.str "a"), ("password", Json.str "b")]).truthy
      = true ∧
    ((mkFetchRequest "/login" "POST"
        (some (Json.obj [("username", Json.str "a"), ("password", Json.str "b")]))).body =
      some (Json.stringify
        (Json.obj [("username", Json.str "a"), ("password", Json.str "b")])) ∧
     Json.parse (Json.stringify
        (Json.obj [("username", Json.str "a"), ("password", Json.str "b")])) =
      some (Json.obj [("username", Json.str "a"), ("password", Json.str "b")])) :=
  ⟨by decide, api_truthy_body_serialized "/login" "POST" _ (by decide)⟩
